import Mathlib

/-!
Verification model of popper's `cli/popper/commands/cmd_run.py`:
the invocation-orchestration layer of the workflow runner (argument
resolution, CI directive scanning of the head commit message, invocation
planning, and the pre/main/post execution sequencer with on-failure
fallback).  External collaborators (the engine, repository introspection,
workflow discovery) are modelled as oracle parameters.
-/

/-- Characters used by the directive scanner. -/
def rbChar : Char := ']'

def nlChar : Char := '\n'

def spChar : Char := ' '

def eqChar : Char := '='

def dashChar : Char := '-'

/-- The directive marker `popper:run[` (11 characters). -/
def markerChars : List Char := "popper:run[".toList

/-- The merge marker looked for in commit messages. -/
def mergeChars : List Char := "Merge".toList

/-- Python truthiness of an optional string: `None` and `""` are falsy. -/
def truthy : Option String → Bool
  | none => false
  | some s => decide (s ≠ "")

/-- Boolean prefix test on character lists. -/
def isPrefixL : List Char → List Char → Bool
  | [], _ => true
  | _ :: _, [] => false
  | a :: as, b :: bs => a = b && isPrefixL as bs

/-- Python's `pat in s` substring test. -/
def containsSub (pat : List Char) : List Char → Bool
  | [] => isPrefixL pat []
  | s@(_ :: rest) => isPrefixL pat s || containsSub pat rest

/-- Strip `pre` from the front of `s`, returning the remainder. -/
def stripPrefixL : List Char → List Char → Option (List Char)
  | [], s => some s
  | _ :: _, [] => none
  | a :: as, b :: bs => if a = b then stripPrefixL as bs else none

example : ("ab").toList = ['a', 'b'] := rfl

example : containsSub mergeChars ("a Merge b").toList = true := by decide

example : stripPrefixL markerChars ("popper:run[x]").toList = some ['x', rbChar] := by decide

/-!
## CI Directive Scanner

`parse_commit_message` in the source scans the (possibly substituted) head
commit message with `re.findall(r'popper:run\[(.+?)\]', msg)`.  We model the
semantics of this particular regex directly: at each position where the
marker `popper:run[` occurs, the lazy group `(.+?)` captures the shortest
non-empty run of non-newline characters that is followed by `]`; scanning
resumes after the closing bracket (non-overlapping matches), otherwise it
advances one character.
-/

/-- Lazy-group scan after the first captured character: extend the group one
character at a time (each must match `.`, i.e. not be a newline) until the
next character is `]`.  Returns the captured group and the remainder after
the closing bracket. -/
def lazyGroupGo (acc : List Char) : List Char → Option (List Char × List Char)
  | [] => none
  | c :: rest =>
    if c = rbChar then some (acc.reverse, rest)
    else if c = nlChar then none
    else lazyGroupGo (c :: acc) rest

/-- `(.+?)\]` applied right after the marker's `[`: the group needs at least
one character (which may itself be `]`), no newline may occur, and the
character after the group must be `]`. -/
def lazyGroup : List Char → Option (List Char × List Char)
  | [] => none
  | c :: rest => if c = nlChar then none else lazyGroupGo [c] rest

/-- One step of `re.findall` scanning, fuelled (the fuel `s.length` supplied
by `findallRun` is always sufficient: every recursive call consumes at least
one character of the input). -/
def findallAux : Nat → List Char → List (List Char)
  | 0, _ => []
  | _ + 1, [] => []
  | fuel + 1, s@(_ :: rest) =>
    match stripPrefixL markerChars s with
    | some afterMarker =>
      match lazyGroup afterMarker with
      | some (g, after) => g :: findallAux fuel after
      | none => findallAux fuel rest
    | none => findallAux fuel rest

/-- `re.findall(r'popper:run\[(.+?)\]', msg)`: all non-overlapping matches,
left to right, returning each match's captured group. -/
def findallRun (s : List Char) : List (List Char) := findallAux s.length s

/-- A head commit as supplied by the source-control collaborator
(`scm.get_head_commit`): its message and the messages of its parents. -/
structure HeadCommit where
  message : String
  parentMessages : List String
deriving DecidableEq, Repr

/-- Merge substitution in `parse_commit_message`: if the message contains
`Merge` and the commit has exactly two parents, the second parent's message
is scanned instead. -/
def scannedMessage (hc : HeadCommit) : String :=
  if containsSub mergeChars hc.message.toList ∧ hc.parentMessages.length = 2 then
    hc.parentMessages[1]!
  else hc.message

/-- The scan part of `parse_commit_message`: `None` when the marker is absent
from the message, otherwise the list of extracted directive strings. -/
def directivesOf (msg : String) : Option (List (List Char)) :=
  if containsSub markerChars msg.toList then some (findallRun msg.toList)
  else none

/-- `parse_commit_message()`: `None` when there is no head commit, otherwise
scan the (possibly merge-substituted) head commit message. -/
def parse_commit_message (head : Option HeadCommit) : Option (List (List Char)) :=
  match head with
  | none => none
  | some hc => directivesOf (scannedMessage hc)

example : findallRun ("popper:run[--wfile a.workflow build] and popper:run[test]").toList =
    [("--wfile a.workflow build").toList, ("test").toList] := by decide

example : findallRun ("popper:run[]").toList = [] := by decide

example : findallRun ("popper:run[]]").toList = [[rbChar]] := by decide

example : findallRun ("see popper:run[] thanks").toList = [] := by decide

/-!
## Argument Resolver (the `run` command's parameter set)

The `cli` function's click declarations define one positional argument
`action` and the options below.  `RunConfig` is the `kwargs` dictionary
click hands to `cli` (equivalently `Context.params`): every declared
parameter always has a value, defaults filled in.
-/

structure RunConfig where
  action : Option String
  wfile : Option String
  debug : Bool
  dry_run : Bool
  log_file : Option String
  on_failure : Option String
  parallel : Bool
  quiet : Bool
  reuse : Bool
  runtime : String
  skip : List String
  skip_clone : Bool
  skip_pull : Bool
  with_dependencies : Bool
  workspace : String
deriving DecidableEq, Repr

/-- The click defaults of the `run` command; `g` is the value of
`popper.scm.get_git_root_folder()`, the declared default of `--workspace`. -/
def defaultConfig (g : String) : RunConfig where
  action := none
  wfile := none
  debug := false
  dry_run := false
  log_file := none
  on_failure := none
  parallel := false
  quiet := false
  reuse := false
  runtime := "docker"
  skip := []
  skip_clone := false
  skip_pull := false
  with_dependencies := false
  workspace := g

/-- Python's `s.split(" ")`: split at every single space, keeping empty
pieces (so `"".split(" ") == [""]`). -/
def splitSpaces : List Char → List (List Char)
  | [] => [[]]
  | c :: rest =>
    if c = spChar then [] :: splitSpaces rest
    else
      match splitSpaces rest with
      | [] => [[c]]
      | g :: gs => (c :: g) :: gs

/-- Split a long-option token at its first `=` (click's `--opt=value`
syntax); the value keeps any further `=` characters. -/
def splitEqTok : List Char → List Char × Option (List Char)
  | [] => ([], none)
  | c :: rest =>
    if c = eqChar then ([], some rest)
    else
      match splitEqTok rest with
      | (n, v) => (c :: n, v)

/-- What a long-option token means for this command's declared parameters. -/
inductive OptSpec where
  | flagOpt (set : RunConfig → RunConfig)
  | valOpt (set : RunConfig → String → Option RunConfig)
  | unknownOpt

/-- The option table of the `run` command, exactly the click declarations:
flags, value options, the `--runtime` choice, and the repeatable `--skip`. -/
def optSpec (n : List Char) : OptSpec :=
  if n = ("--wfile").toList then
    OptSpec.valOpt fun c v => some { c with wfile := some v }
  else if n = ("--debug").toList then
    OptSpec.flagOpt fun c => { c with debug := true }
  else if n = ("--dry-run").toList then
    OptSpec.flagOpt fun c => { c with dry_run := true }
  else if n = ("--log-file").toList then
    OptSpec.valOpt fun c v => some { c with log_file := some v }
  else if n = ("--on-failure").toList then
    OptSpec.valOpt fun c v => some { c with on_failure := some v }
  else if n = ("--parallel").toList then
    OptSpec.flagOpt fun c => { c with parallel := true }
  else if n = ("--quiet").toList then
    OptSpec.flagOpt fun c => { c with quiet := true }
  else if n = ("--reuse").toList then
    OptSpec.flagOpt fun c => { c with reuse := true }
  else if n = ("--runtime").toList then
    OptSpec.valOpt fun c v =>
      if v = "docker" ∨ v = "singularity" then some { c with runtime := v }
      else none
  else if n = ("--skip").toList then
    OptSpec.valOpt fun c v => some { c with skip := c.skip ++ [v] }
  else if n = ("--skip-clone").toList then
    OptSpec.flagOpt fun c => { c with skip_clone := true }
  else if n = ("--skip-pull").toList then
    OptSpec.flagOpt fun c => { c with skip_pull := true }
  else if n = ("--with-dependencies").toList then
    OptSpec.flagOpt fun c => { c with with_dependencies := true }
  else if n = ("--workspace").toList then
    OptSpec.valOpt fun c v => some { c with workspace := v }
  else OptSpec.unknownOpt

/-- Assign a positional token: the single declared argument `action`;
a second positional (click's "unexpected extra argument") is an error. -/
def takePositional (cfg : RunConfig) (t : List Char) : Option RunConfig :=
  match cfg.action with
  | none => some { cfg with action := some (String.mk t) }
  | some _ => none

/-- After a bare `--`, click treats every remaining token as positional. -/
def parsePositionals (cfg : RunConfig) : List (List Char) → Option RunConfig
  | [] => some cfg
  | t :: rest =>
    match takePositional cfg t with
    | some cfg2 => parsePositionals cfg2 rest
    | none => none

/-- The token loop of click's parser for this command: long options (with
optional `=value`), unknown options and malformed uses are usage errors
(`none`), a lone `-` is positional, and positionals may interleave with
options. -/
def parseTokens (cfg : RunConfig) : List (List Char) → Option RunConfig
  | [] => some cfg
  | t :: rest =>
    if t = [dashChar, dashChar] then parsePositionals cfg rest
    else if isPrefixL [dashChar, dashChar] t then
      match splitEqTok t with
      | (n, vInline) =>
        match optSpec n with
        | OptSpec.flagOpt f =>
          match vInline with
          | none => parseTokens (f cfg) rest
          | some _ => none
        | OptSpec.valOpt f =>
          match vInline with
          | some v =>
            match f cfg (String.mk v) with
            | some cfg2 => parseTokens cfg2 rest
            | none => none
          | none =>
            match rest with
            | [] => none
            | v :: rs =>
              match f cfg (String.mk v) with
              | some cfg2 => parseTokens cfg2 rs
              | none => none
        | OptSpec.unknownOpt => none
    else if isPrefixL [dashChar] t ∧ t ≠ [dashChar] then none
    else
      match takePositional cfg t with
      | some cfg2 => parseTokens cfg2 rest
      | none => none

/-- `cli.make_context('popper run', args).params`: parse an argument token
list with the `run` command's grammar, starting from the declared defaults.
`none` models a click usage error (which aborts the whole command). -/
def parse_args (g : String) (tokens : List (List Char)) : Option RunConfig :=
  parseTokens (defaultConfig g) tokens

example : parse_args ("/repo") (splitSpaces ("--wfile a.workflow build").toList) =
    some { defaultConfig ("/repo") with wfile := some ("a.workflow"), action := some ("build") } := by
  decide

example : parse_args ("/repo") (splitSpaces ("test").toList) =
    some { defaultConfig ("/repo") with action := some ("test") } := by decide

/-!
## Invocation Planner

In `cli`, when `CI` is set: if `parse_commit_message()` returned a truthy
list, each directive string is split on spaces and re-parsed with
`cli.make_context` (`get_args`), and `kwargs.update(args)` is applied.
Since `Context.params` holds a value for *every* declared parameter
(defaults filled in), the update replaces every field of the base kwargs,
so the run's config is exactly the re-parsed one.  If the result was `None`
or the empty list (both falsy), the plan falls back to recursive discovery:
one run per discovered workflow file, base config with `wfile` replaced.
-/

/-- `get_args`: re-parse each extracted directive string, in order, with the
top-level command grammar; a failing parse is a fatal usage error. -/
def get_args (g : String) : List (List Char) → Option (List RunConfig)
  | [] => some []
  | d :: ds =>
    match parse_args g (splitSpaces d) with
    | none => none
    | some cfg =>
      match get_args g ds with
      | none => none
      | some cfgs => some (cfg :: cfgs)

/-- The branch condition `if popper_run_instances:` in `cli`: recursive
discovery is chosen exactly when the scan produced `None` or an empty
list. -/
def ciRecursiveTriggered (head : Option HeadCommit) : Bool :=
  match parse_commit_message head with
  | some (_ :: _) => false
  | _ => true

/-- The plan in recursive mode: one run per discovered workflow file
(`pu.find_recursive_wfile()`, an external collaborator returning the
deterministic list `discover`), each the base config with `wfile`
replaced. -/
def recursivePlan (base : RunConfig) (discover : List String) : List RunConfig :=
  discover.map fun w => { base with wfile := some w }

/-- The CI-mode invocation plan: the ordered run configurations `cli`
executes.  `none` models a fatal directive re-parse error. -/
def ciPlan (head : Option HeadCommit) (base : RunConfig) (g : String)
    (discover : List String) : Option (List RunConfig) :=
  match parse_commit_message head with
  | some (d :: ds) => get_args g (d :: ds)
  | _ => some (recursivePlan base discover)

/-!
## Execution Sequencer (`run_workflow`)

External collaborators are oracles: `resolve` models
`pu.find_default_wfile` plus `Workflow(...)` validation (`none` = fatal),
and `engine` models `WorkflowRunner.run`, returning either a normal return
or the code of the `SystemExit` it raises.  Each engine call site is
tagged with its stage so the execution trace is observable.
-/

inductive Stage where
  | pre
  | main
  | post
  | fallback
deriving DecidableEq, Repr

/-- The arguments of one `WorkflowRunner.run(**kwargs)` call: the workflow
the runner was built from, plus the `kwargs` keys still present at the call
(`quiet`/`debug`/`log_file` were popped in `prepare_workflow_execution`,
`on_failure`/`wfile` in `run_workflow`). -/
structure Invocation where
  wfile : String
  action : Option String
  dry_run : Bool
  parallel : Bool
  reuse : Bool
  runtime : String
  skip : List String
  skip_clone : Bool
  skip_pull : Bool
  with_dependencies : Bool
  workspace : String
deriving DecidableEq, Repr

/-- Build the engine invocation for workflow file `w` with config `cfg`. -/
def mkInv (w : String) (cfg : RunConfig) : Invocation where
  wfile := w
  action := cfg.action
  dry_run := cfg.dry_run
  parallel := cfg.parallel
  reuse := cfg.reuse
  runtime := cfg.runtime
  skip := cfg.skip
  skip_clone := cfg.skip_clone
  skip_pull := cfg.skip_pull
  with_dependencies := cfg.with_dependencies
  workspace := cfg.workspace

/-- Result of one engine call: normal return, or `SystemExit` with a code. -/
inductive ExecResult where
  | ok
  | exit (code : Int)
deriving DecidableEq, Repr

/-- The environment variables consulted by `run_workflow`:
`POPPER_PRE_WORKFLOW_PATH` and `POPPER_POST_WORKFLOW_PATH`
(`os.environ.get`: absent is `None`; the code tests truthiness, so an
empty value is also skipped). -/
structure Env where
  pre_wfile : Option String
  post_wfile : Option String
deriving DecidableEq, Repr

/-- Outcome of one `run_workflow` call: normal return, a fatal `log.fail`
validation error raised before the `try` block, or a propagated
`SystemExit` code. -/
inductive SeqOutcome where
  | completed
  | validationFailure (msg : String)
  | exited (code : Int)
deriving DecidableEq, Repr

/-- One `run_workflow` call's observable behavior: the values written to
`popper.cli.interrupt_params['parallel']`, the engine calls made (in
order, stage-tagged), and the outcome. -/
structure RunResult where
  writes : List Bool
  trace : List (Stage × Invocation)
  outcome : SeqOutcome
deriving DecidableEq, Repr

/-- The post-stage inside the `try` block: run only if pre and main
returned normally, and only when `POPPER_POST_WORKFLOW_PATH` is truthy. -/
def postPart (engine : Invocation → ExecResult) (env : Env) (cfg : RunConfig) :
    List (Stage × Invocation) × Option Int :=
  match env.post_wfile with
  | some q =>
    if q = "" then ([], none)
    else
      match engine (mkInv q cfg) with
      | ExecResult.ok => ([(Stage.post, mkInv q cfg)], none)
      | ExecResult.exit c => ([(Stage.post, mkInv q cfg)], some c)
  | none => ([], none)

/-- The main stage followed by the post stage. -/
def mainPart (engine : Invocation → ExecResult) (env : Env) (cfg : RunConfig)
    (w : String) : List (Stage × Invocation) × Option Int :=
  match engine (mkInv w cfg) with
  | ExecResult.ok =>
    match postPart engine env cfg with
    | (tr, r) => ((Stage.main, mkInv w cfg) :: tr, r)
  | ExecResult.exit c => ([(Stage.main, mkInv w cfg)], some c)

/-- The `try` block of `run_workflow`: optional pre-workflow, main
workflow, optional post-workflow, stopping at the first `SystemExit`
(whose code is returned). -/
def tryStages (engine : Invocation → ExecResult) (env : Env) (cfg : RunConfig)
    (w : String) : List (Stage × Invocation) × Option Int :=
  match env.pre_wfile with
  | some p =>
    if p = "" then mainPart engine env cfg w
    else
      match engine (mkInv p cfg) with
      | ExecResult.ok =>
        match mainPart engine env cfg w with
        | (tr, r) => ((Stage.pre, mkInv p cfg) :: tr, r)
      | ExecResult.exit c => ([(Stage.pre, mkInv p cfg)], some c)
  | none => mainPart engine env cfg w

/-- `run_workflow(**kwargs)`: resolve the workflow file (fatal if absent),
write the interrupt-handling record, validate the flag combinations
(fatal `log.fail` before any engine call), run the staged `try` block, and
on a non-zero `SystemExit` with a truthy `on_failure` run the fallback
action on the same main workflow runner with the skip list cleared; the
fallback's result is final.  Otherwise the `SystemExit` re-raises. -/
def run_workflow (resolve : Option String → Option String)
    (engine : Invocation → ExecResult) (env : Env) (cfg : RunConfig) : RunResult :=
  match resolve cfg.wfile with
  | none => { writes := [], trace := [], outcome := SeqOutcome.validationFailure "no workflow file" }
  | some w =>
    if cfg.with_dependencies = true ∧ truthy cfg.action = false then
      { writes := [cfg.parallel], trace := [],
        outcome := SeqOutcome.validationFailure "with-dependencies needs action" }
    else if cfg.skip ≠ [] ∧ truthy cfg.action = true then
      { writes := [cfg.parallel], trace := [],
        outcome := SeqOutcome.validationFailure "skip excludes action" }
    else
      match tryStages engine env cfg w with
      | (tr, none) => { writes := [cfg.parallel], trace := tr, outcome := SeqOutcome.completed }
      | (tr, some c) =>
        if c ≠ 0 ∧ truthy cfg.on_failure = true then
          match cfg.on_failure with
          | some f =>
            match engine (mkInv w { cfg with action := some f, skip := [] }) with
            | ExecResult.ok =>
              { writes := [cfg.parallel],
                trace := tr ++ [(Stage.fallback, mkInv w { cfg with action := some f, skip := [] })],
                outcome := SeqOutcome.completed }
            | ExecResult.exit c2 =>
              { writes := [cfg.parallel],
                trace := tr ++ [(Stage.fallback, mkInv w { cfg with action := some f, skip := [] })],
                outcome := SeqOutcome.exited c2 }
          | none =>
            { writes := [cfg.parallel], trace := tr, outcome := SeqOutcome.exited c }
        else { writes := [cfg.parallel], trace := tr, outcome := SeqOutcome.exited c }

/-- Run the configs of a plan in order, stopping at the first one whose
`run_workflow` does not return normally (its `SystemExit` propagates).
Accumulates the interrupt-record writes of the runs performed. -/
def runPlan (resolve : Option String → Option String)
    (engine : Invocation → ExecResult) (env : Env) :
    List RunConfig → List Bool × SeqOutcome
  | [] => ([], SeqOutcome.completed)
  | cfg :: rest =>
    match (run_workflow resolve engine env cfg).outcome with
    | SeqOutcome.completed =>
      match runPlan resolve engine env rest with
      | (ws, o) => ((run_workflow resolve engine env cfg).writes ++ ws, o)
    | o => ((run_workflow resolve engine env cfg).writes, o)

/-- The CI directive loop of `cli`: `get_args` is a generator, so each
directive is re-parsed right before its run (a usage error aborts there). -/
def runDirectives (resolve : Option String → Option String)
    (engine : Invocation → ExecResult) (env : Env) (g : String) :
    List (List Char) → List Bool × SeqOutcome
  | [] => ([], SeqOutcome.completed)
  | d :: ds =>
    match parse_args g (splitSpaces d) with
    | none => ([], SeqOutcome.validationFailure "directive usage error")
    | some cfg =>
      match (run_workflow resolve engine env cfg).outcome with
      | SeqOutcome.completed =>
        match runDirectives resolve engine env g ds with
        | (ws, o) => ((run_workflow resolve engine env cfg).writes ++ ws, o)
      | o => ((run_workflow resolve engine env cfg).writes, o)

/-- The whole `cli` body in CI mode (`CI == 'true'`): scan the head commit,
then either the directive loop or the recursive plan. -/
def ciCommand (resolve : Option String → Option String)
    (engine : Invocation → ExecResult) (env : Env) (g : String)
    (discover : List String) (head : Option HeadCommit) (base : RunConfig) :
    List Bool × SeqOutcome :=
  match parse_commit_message head with
  | some (d :: ds) => runDirectives resolve engine env g (d :: ds)
  | _ => runPlan resolve engine env (recursivePlan base discover)

/-- The logging-level resolution at the top of
`prepare_workflow_execution`. -/
def setLogLevel (quiet debug : Bool) : String :=
  let level := "ACTION_INFO"
  let level := if quiet then "INFO" else level
  let level := if debug then "DEBUG" else level
  level

/-!
## Concrete fixtures

Oracle instantiations and concrete inputs used to evaluate the model in
witnesses and counterexamples.
-/

def gEx : String := "/repo"

/-- A resolver that keeps an explicit path and falls back to the default
location for `None`. -/
def resolveEx : Option String → Option String
  | some s => some s
  | none => some ("main.workflow")

/-- An engine on which every run returns normally. -/
def engineOk : Invocation → ExecResult := fun _ => ExecResult.ok

/-- An engine on which only the `fix` action succeeds (the main run
fails with exit status 1). -/
def engineFixOk : Invocation → ExecResult := fun i =>
  if i.action = some ("fix") then ExecResult.ok else ExecResult.exit 1

/-- An engine on which the main run fails with exit status 1 and the
`fix` action fails with exit status 7. -/
def engineFixBad : Invocation → ExecResult := fun i =>
  if i.action = some ("fix") then ExecResult.exit 7 else ExecResult.exit 1

/-- An engine on which the pre-workflow fails with exit status 3. -/
def enginePreFail : Invocation → ExecResult := fun i =>
  if i.wfile = "pre.workflow" then ExecResult.exit 3 else ExecResult.ok

def envNone : Env := { pre_wfile := none, post_wfile := none }

def envPre : Env := { pre_wfile := some ("pre.workflow"), post_wfile := none }

/-- A base config with non-default fields, to observe whether directive
re-parsing preserves them. -/
def c1base : RunConfig :=
  { defaultConfig gEx with debug := true, wfile := some ("base.workflow") }

/-- Head commit whose message carries exactly the two payloads of the
claim's example. -/
def hc1 : HeadCommit :=
  { message := "popper:run[--wfile a.workflow build] and popper:run[test]"
    parentMessages := [] }

/-- Head commit whose message contains the marker followed by an empty
bracket pair: the marker is present but zero directives are extracted. -/
def hc3 : HeadCommit :=
  { message := "see popper:run[] thanks", parentMessages := [] }

/-- A two-parent merge commit whose second parent carries a directive. -/
def hc4 : HeadCommit :=
  { message := "Merge branch devel", parentMessages := ["parent one", "do popper:run[test] now"] }

/-- Head commit with two directives, for counting interrupt-record
writes. -/
def hc9 : HeadCommit :=
  { message := "popper:run[alpha] popper:run[beta]", parentMessages := [] }

/-- A config with `with-dependencies` set and no action. -/
def cfg5 : RunConfig := { defaultConfig gEx with with_dependencies := true }

/-- A config with an explicit workflow and an on-failure action. -/
def cfgFb : RunConfig :=
  { defaultConfig gEx with wfile := some ("w.workflow"), on_failure := some ("fix") }

/-- `cfgFb` without the on-failure action. -/
def cfgNoFb : RunConfig := { defaultConfig gEx with wfile := some ("w.workflow") }

/-!
## Helper lemmas

The `try` block's trace visits the stages pre, main, post in that strict
order, each at most once; expressed as a sublist fact on the stage tags.
-/

theorem postPart_stages (engine : Invocation → ExecResult) (env : Env) (cfg : RunConfig) :
    ((postPart engine env cfg).1.map Prod.fst).Sublist [Stage.post] := by
  unfold postPart
  cases env.post_wfile with
  | none => simp
  | some q =>
    by_cases hq : q = ""
    · simp [hq]
    · simp only [if_neg hq]
      cases engine (mkInv q cfg) <;> simp

theorem mainPart_stages (engine : Invocation → ExecResult) (env : Env) (cfg : RunConfig)
    (w : String) :
    ((mainPart engine env cfg w).1.map Prod.fst).Sublist [Stage.main, Stage.post] := by
  unfold mainPart
  cases engine (mkInv w cfg) with
  | ok =>
    have hp := postPart_stages engine env cfg
    cases hpp : postPart engine env cfg with
    | mk tr r =>
      rw [hpp] at hp
      simpa using List.Sublist.cons₂ Stage.main hp
  | exit c => simp

theorem tryStages_stages (engine : Invocation → ExecResult) (env : Env) (cfg : RunConfig)
    (w : String) :
    ((tryStages engine env cfg w).1.map Prod.fst).Sublist [Stage.pre, Stage.main, Stage.post] := by
  unfold tryStages
  have hm := mainPart_stages engine env cfg w
  cases env.pre_wfile with
  | none => exact hm.trans (List.Sublist.cons Stage.pre (List.Sublist.refl _))
  | some p =>
    by_cases hp : p = ""
    · simp only [if_pos hp]
      exact hm.trans (List.Sublist.cons Stage.pre (List.Sublist.refl _))
    · simp only [if_neg hp]
      cases engine (mkInv p cfg) with
      | ok =>
        cases hmp : mainPart engine env cfg w with
        | mk tr r =>
          rw [hmp] at hm
          simpa using List.Sublist.cons₂ Stage.pre hm
      | exit c => simp

/-- No fallback-stage engine call happens inside the `try` block. -/
theorem tryStages_no_fallback (engine : Invocation → ExecResult) (env : Env)
    (cfg : RunConfig) (w : String) :
    ((tryStages engine env cfg w).1.map Prod.fst).count Stage.fallback = 0 := by
  have h := (tryStages_stages engine env cfg w).count_le Stage.fallback
  have h0 : ([Stage.pre, Stage.main, Stage.post]).count Stage.fallback = 0 := by decide
  omega

/-- A post-stage entry in the `try` block's trace implies the main-stage
engine call returned normally. -/
theorem mainPart_post_mem (engine : Invocation → ExecResult) (env : Env)
    (cfg : RunConfig) (w : String) (i : Invocation) :
    (Stage.post, i) ∈ (mainPart engine env cfg w).1 →
      engine (mkInv w cfg) = ExecResult.ok := by
  unfold mainPart
  cases he : engine (mkInv w cfg) with
  | ok => intro _; rfl
  | exit c =>
    intro hmem
    simp at hmem

/-!
## Claims
-/

/-- C8: the effective logging level is `DEBUG` (most verbose) whenever
`debug` is set, regardless of `quiet`; `INFO` (suppressing action-level
informational output) when `quiet` is set and `debug` is not; and the
default `ACTION_INFO` when neither is set — `debug` overrides `quiet`. -/
theorem c8_verbosity_resolution (q : Bool) :
    setLogLevel q true = "DEBUG" ∧ setLogLevel true false = "INFO" ∧
      setLogLevel false false = "ACTION_INFO" := by
  cases q <;> exact ⟨rfl, rfl, rfl⟩

/-- C4: when the head commit message contains the merge marker `Merge` and
the commit has exactly two parents, directive scanning operates on the
second parent's message; otherwise (no marker, or a parent count other
than two) the head commit's own message is scanned. -/
theorem c4_merge_substitution (hc : HeadCommit) (p1 p2 : String) :
    (containsSub mergeChars hc.message.toList = true → hc.parentMessages = [p1, p2] →
      parse_commit_message (some hc) = directivesOf p2)
    ∧ (containsSub mergeChars hc.message.toList = false →
      parse_commit_message (some hc) = directivesOf hc.message)
    ∧ (hc.parentMessages.length ≠ 2 →
      parse_commit_message (some hc) = directivesOf hc.message) := by
  refine ⟨?_, ?_, ?_⟩
  · intro hm hp
    simp only [String.toList] at hm
    simp [parse_commit_message, scannedMessage, hm, hp]
  · intro hm
    simp only [String.toList] at hm
    simp [parse_commit_message, scannedMessage, hm]
  · intro hp
    simp [parse_commit_message, scannedMessage, hp]

/-- Witness for C4 on a concrete merge commit with two parents. -/
theorem c4_merge_substitution_witness :
    parse_commit_message (some hc4) = directivesOf ("do popper:run[test] now") :=
  (c4_merge_substitution hc4 ("parent one") ("do popper:run[test] now")).1 (by decide) rfl

/-- C5: a config with `with-dependencies` set and no target action makes
`run_workflow` fail with a fatal validation error (`log.fail`), with no
engine execution attempted. -/
theorem c5_with_dependencies_requires_action (resolve : Option String → Option String)
    (engine : Invocation → ExecResult) (env : Env) (cfg : RunConfig)
    (h1 : cfg.with_dependencies = true) (h2 : cfg.action = none) :
    (run_workflow resolve engine env cfg).trace = [] ∧
      ∃ m, (run_workflow resolve engine env cfg).outcome = SeqOutcome.validationFailure m := by
  unfold run_workflow
  cases resolve cfg.wfile with
  | none => exact ⟨rfl, "no workflow file", rfl⟩
  | some w =>
    dsimp only
    rw [if_pos ⟨h1, by rw [h2]; rfl⟩]
    exact ⟨rfl, "with-dependencies needs action", rfl⟩

/-- Witness for C5 at a concrete config. -/
theorem c5_with_dependencies_requires_action_witness :
    (run_workflow resolveEx engineOk envNone cfg5).trace = [] ∧
      ∃ m, (run_workflow resolveEx engineOk envNone cfg5).outcome = SeqOutcome.validationFailure m :=
  c5_with_dependencies_requires_action resolveEx engineOk envNone cfg5 rfl rfl

/-- C2: when a pre/main/post stage raises a non-zero `SystemExit` and an
on-failure action is configured (a non-empty name — the code tests Python
truthiness), the engine is re-invoked exactly once, targeting only the
on-failure action with the skip set cleared, on the same resolved main
workflow, and that fallback invocation's result is the final outcome; with
no on-failure action configured the original failure propagates
unchanged. -/
theorem c2_failure_interception (resolve : Option String → Option String)
    (engine : Invocation → ExecResult) (env : Env) (cfg : RunConfig) (w : String)
    (tr : List (Stage × Invocation)) (c : Int)
    (hres : resolve cfg.wfile = some w)
    (hv1 : ¬(cfg.with_dependencies = true ∧ truthy cfg.action = false))
    (hv2 : ¬(cfg.skip ≠ [] ∧ truthy cfg.action = true))
    (htry : tryStages engine env cfg w = (tr, some c))
    (hc : c ≠ 0) :
    (∀ f, cfg.on_failure = some f → f ≠ "" →
      run_workflow resolve engine env cfg =
        { writes := [cfg.parallel]
          trace := tr ++ [(Stage.fallback, mkInv w { cfg with action := some f, skip := [] })]
          outcome :=
            match engine (mkInv w { cfg with action := some f, skip := [] }) with
            | ExecResult.ok => SeqOutcome.completed
            | ExecResult.exit c2 => SeqOutcome.exited c2 })
    ∧ (cfg.on_failure = none →
      run_workflow resolve engine env cfg =
        { writes := [cfg.parallel], trace := tr, outcome := SeqOutcome.exited c }) := by
  constructor
  · intro f hf hfe
    unfold run_workflow
    rw [hres]
    dsimp only
    rw [if_neg hv1, if_neg hv2, htry]
    dsimp only
    have ht : truthy cfg.on_failure = true := by
      rw [hf]; simp [truthy, hfe]
    rw [if_pos ⟨hc, ht⟩, hf]
    dsimp only
    split <;> simp_all
  · intro hf
    unfold run_workflow
    rw [hres]
    dsimp only
    rw [if_neg hv1, if_neg hv2, htry]
    dsimp only
    have ht : truthy cfg.on_failure = false := by rw [hf]; rfl
    rw [if_neg (by simp [ht])]

/-- Witness for C2: a failing main stage with a configured on-failure
action whose fallback run succeeds. -/
theorem c2_failure_interception_witness :
    run_workflow resolveEx engineFixOk envNone cfgFb =
      { writes := [false]
        trace := [(Stage.main, mkInv ("w.workflow") cfgFb),
                  (Stage.fallback, mkInv ("w.workflow") { cfgFb with action := some ("fix"), skip := [] })]
        outcome := SeqOutcome.completed } := by
  have h := (c2_failure_interception resolveEx engineFixOk envNone cfgFb ("w.workflow")
    [(Stage.main, mkInv ("w.workflow") cfgFb)] 1 rfl (by decide) (by decide) (by decide)
    (by decide)).1 ("fix") rfl (by decide)
  simpa using h

/-- C6: inside one run, the stages execute in the strict order
pre-workflow, main workflow, post-workflow (each at most once); a failing
pre-stage ends the `try` block with only the pre invocation performed (the
main stage never runs), and a post-stage invocation can only appear after
the main stage returned normally. -/
theorem c6_stage_order (engine : Invocation → ExecResult) (env : Env) (cfg : RunConfig)
    (w p : String) (c : Int) :
    ((tryStages engine env cfg w).1.map Prod.fst).Sublist [Stage.pre, Stage.main, Stage.post]
    ∧ (env.pre_wfile = some p → p ≠ "" → engine (mkInv p cfg) = ExecResult.exit c →
        tryStages engine env cfg w = ([(Stage.pre, mkInv p cfg)], some c))
    ∧ (∀ i, (Stage.post, i) ∈ (tryStages engine env cfg w).1 →
        engine (mkInv w cfg) = ExecResult.ok) := by
  refine ⟨tryStages_stages engine env cfg w, ?_, ?_⟩
  · intro hpre hpne heng
    unfold tryStages
    rw [hpre]
    dsimp only
    rw [if_neg hpne, heng]
  · intro i hmem
    unfold tryStages at hmem
    cases hpre : env.pre_wfile with
    | none =>
      rw [hpre] at hmem
      exact mainPart_post_mem engine env cfg w i hmem
    | some q =>
      rw [hpre] at hmem
      dsimp only at hmem
      by_cases hq : q = ""
      · rw [if_pos hq] at hmem
        exact mainPart_post_mem engine env cfg w i hmem
      · rw [if_neg hq] at hmem
        cases he : engine (mkInv q cfg) with
        | ok =>
          rw [he] at hmem
          cases hmp : mainPart engine env cfg w with
          | mk tr r =>
            rw [hmp] at hmem
            dsimp only at hmem
            rcases List.mem_cons.mp hmem with h1 | h2
            · simp at h1
            · have := mainPart_post_mem engine env cfg w i
              rw [hmp] at this
              exact this h2
        | exit c0 =>
          rw [he] at hmem
          simp at hmem

/-- Witness for C6: a failing pre-workflow stops the `try` block before the
main stage. -/
theorem c6_stage_order_witness :
    tryStages enginePreFail envPre cfgNoFb ("w.workflow") =
      ([(Stage.pre, mkInv ("pre.workflow") cfgNoFb)], some 3) :=
  (c6_stage_order enginePreFail envPre cfgNoFb ("w.workflow") ("pre.workflow") 3).2.1
    rfl (by decide) (by decide)

/-- C7: an execution failure is recoverable at most once per run — the
trace never holds more than one fallback invocation; if the fallback
itself fails its exit status is the run's (and the whole plan's) final
outcome with no second attempt, and with no on-failure action configured
the original status propagates. -/
theorem c7_recoverable_at_most_once (resolve : Option String → Option String)
    (engine : Invocation → ExecResult) (env : Env) (cfg : RunConfig) (w : String)
    (tr : List (Stage × Invocation)) (c c2 : Int) (f : String) :
    ((run_workflow resolve engine env cfg).trace.map Prod.fst).count Stage.fallback ≤ 1
    ∧ (resolve cfg.wfile = some w →
       ¬(cfg.with_dependencies = true ∧ truthy cfg.action = false) →
       ¬(cfg.skip ≠ [] ∧ truthy cfg.action = true) →
       tryStages engine env cfg w = (tr, some c) → c ≠ 0 →
       cfg.on_failure = some f → f ≠ "" →
       engine (mkInv w { cfg with action := some f, skip := [] }) = ExecResult.exit c2 →
       (run_workflow resolve engine env cfg).outcome = SeqOutcome.exited c2
         ∧ ∀ rest, (runPlan resolve engine env (cfg :: rest)).2 = SeqOutcome.exited c2)
    ∧ (resolve cfg.wfile = some w →
       ¬(cfg.with_dependencies = true ∧ truthy cfg.action = false) →
       ¬(cfg.skip ≠ [] ∧ truthy cfg.action = true) →
       tryStages engine env cfg w = (tr, some c) →
       truthy cfg.on_failure = false →
       (run_workflow resolve engine env cfg).outcome = SeqOutcome.exited c) := by
  refine ⟨?_, ?_, ?_⟩
  · unfold run_workflow
    cases hres : resolve cfg.wfile with
    | none => simp
    | some w' =>
      have hnf := tryStages_no_fallback engine env cfg w'
      dsimp only
      split
      · simp
      · split
        · simp
        · cases htr : tryStages engine env cfg w' with
          | mk tr0 r =>
            rw [htr] at hnf
            dsimp only at hnf
            cases r with
            | none => dsimp only; omega
            | some c0 =>
              dsimp only
              split
              · cases hof : cfg.on_failure with
                | none => dsimp only; omega
                | some f0 =>
                  dsimp only
                  split <;> simp [List.map_append, List.count_append, hnf]
              · dsimp only; omega
  · intro hres hv1 hv2 htry hc hf hfe hfb
    have hrw : run_workflow resolve engine env cfg =
        { writes := [cfg.parallel]
          trace := tr ++ [(Stage.fallback, mkInv w { cfg with action := some f, skip := [] })]
          outcome := SeqOutcome.exited c2 } := by
      unfold run_workflow
      rw [hres]
      dsimp only
      rw [if_neg hv1, if_neg hv2, htry]
      dsimp only
      have ht : truthy cfg.on_failure = true := by rw [hf]; simp [truthy, hfe]
      rw [if_pos ⟨hc, ht⟩, hf]
      dsimp only
      rw [hf] at hfb
      rw [hfb]
    refine ⟨by rw [hrw], ?_⟩
    intro rest
    unfold runPlan
    rw [hrw]
  · intro hres hv1 hv2 htry ht
    unfold run_workflow
    rw [hres]
    dsimp only
    rw [if_neg hv1, if_neg hv2, htry]
    dsimp only
    rw [if_neg (by simp [ht])]

/-- Witness for C7: the fallback itself fails and its status is final. -/
theorem c7_recoverable_at_most_once_witness :
    (run_workflow resolveEx engineFixBad envNone cfgFb).outcome = SeqOutcome.exited 7 :=
  ((c7_recoverable_at_most_once resolveEx engineFixBad envNone cfgFb ("w.workflow")
    [(Stage.main, mkInv ("w.workflow") cfgFb)] 1 7 ("fix")).2.1 rfl (by decide) (by decide)
    (by decide) (by decide) rfl (by decide) (by decide)).1

/-- Characters collected by the lazy-group loop after the first one are
neither `]` nor a newline. -/
theorem lazyGroupGo_chars (l : List Char) : ∀ acc g after : List Char,
    lazyGroupGo acc l = some (g, after) →
      ∃ mid, g = acc.reverse ++ mid ∧ ∀ c ∈ mid, c ≠ rbChar ∧ c ≠ nlChar := by
  induction l with
  | nil => intro acc g after h; simp [lazyGroupGo] at h
  | cons c rest ih =>
    intro acc g after h
    unfold lazyGroupGo at h
    by_cases hc : c = rbChar
    · rw [if_pos hc] at h
      injection h with h'
      rw [Prod.mk.injEq] at h'
      exact ⟨[], by simp [h'.1.symm], by simp⟩
    · rw [if_neg hc] at h
      by_cases hn : c = nlChar
      · rw [if_pos hn] at h
        exact absurd h (by simp)
      · rw [if_neg hn] at h
        obtain ⟨mid, hg, hmid⟩ := ih (c :: acc) g after h
        refine ⟨c :: mid, ?_, ?_⟩
        · rw [hg]
          simp
        · intro x hx
          rcases List.mem_cons.mp hx with rfl | hx2
          · exact ⟨hc, hn⟩
          · exact hmid x hx2

/-- A captured lazy group is non-empty, newline-free, and contains `]` at
most as its first character. -/
theorem lazyGroup_chars (l g after : List Char) (h : lazyGroup l = some (g, after)) :
    g ≠ [] ∧ nlChar ∉ g ∧ rbChar ∉ g.tail := by
  cases l with
  | nil => simp [lazyGroup] at h
  | cons c rest =>
    unfold lazyGroup at h
    dsimp only at h
    by_cases hn : c = nlChar
    · rw [if_pos hn] at h
      exact absurd h (by simp)
    · rw [if_neg hn] at h
      obtain ⟨mid, hg, hmid⟩ := lazyGroupGo_chars rest [c] g after h
      simp only [List.reverse_cons, List.reverse_nil, List.nil_append] at hg
      subst hg
      refine ⟨by simp, ?_, ?_⟩
      · intro hmem
        rcases List.mem_cons.mp hmem with h1 | h2
        · exact hn h1.symm
        · exact (hmid nlChar h2).2 rfl
      · intro hmem
        simp only [List.singleton_append, List.tail_cons] at hmem
        exact (hmid rbChar hmem).1 rfl

/-- Every string extracted by the fuelled findall loop is non-empty,
newline-free, and has no `]` after its first character. -/
theorem findallAux_mem (fuel : Nat) : ∀ s g : List Char, g ∈ findallAux fuel s →
    g ≠ [] ∧ nlChar ∉ g ∧ rbChar ∉ g.tail := by
  induction fuel with
  | zero => intro s g h; simp [findallAux] at h
  | succ n ih =>
    intro s g h
    cases s with
    | nil => simp [findallAux] at h
    | cons c rest =>
      unfold findallAux at h
      cases hstrip : stripPrefixL markerChars (c :: rest) with
      | none =>
        rw [hstrip] at h
        exact ih rest g h
      | some afterM =>
        rw [hstrip] at h
        dsimp only at h
        cases hlz : lazyGroup afterM with
        | none =>
          rw [hlz] at h
          exact ih rest g h
        | some p =>
          cases p with
          | mk g0 after =>
            rw [hlz] at h
            rcases List.mem_cons.mp h with h1 | h2
            · subst h1
              exact lazyGroup_chars afterM _ after hlz
            · exact ih after g h2

/-- C10 counterexample: on the message `popper:run[]]` — the marker
immediately followed by an empty bracket pair — the scanner extracts the
directive `"]"`, which contains a closing bracket. -/
theorem c10_counterexample :
    findallRun (("popper:run[]]").toList) = [[rbChar]] ∧
      ∃ g, g ∈ findallRun (("popper:run[]]").toList) ∧ rbChar ∈ g := by
  refine ⟨by decide, [rbChar], by decide, by decide⟩

/-- C10 amended: every extracted directive argument string is non-empty,
contains no newline, and contains no `]` after its first character; the
lazy capture is the shortest non-empty same-line text followed by `]`, so
a `]` can only appear as the payload's first character (when the marker is
immediately followed by `]` and another `]` occurs later on the line). -/
theorem c10_amended (s g : List Char) (h : g ∈ findallRun s) :
    g ≠ [] ∧ nlChar ∉ g ∧ rbChar ∉ g.tail :=
  findallAux_mem s.length s g h

/-- Witness for C10 amended: the directive `ab` extracted from
`popper:run[ab]cd]` (truncation at the first `]`). -/
theorem c10_amended_witness :
    ("ab").toList ≠ [] ∧ nlChar ∉ ("ab").toList ∧ rbChar ∉ ("ab").toList.tail :=
  c10_amended (("popper:run[ab]cd]").toList) (("ab").toList) (by decide)

/-- C3 counterexample: on the message `see popper:run[] thanks` the
directive marker is present in the scanned message, yet `cli` still falls
back to recursive discovery (the `if popper_run_instances:` test treats
the empty extraction like the absent marker). -/
theorem c3_counterexample :
    ciRecursiveTriggered (some hc3) = true ∧
      containsSub markerChars ((scannedMessage hc3).toList) = true := by decide

/-- C3 amended: in CI mode, recursive discovery is triggered exactly when
the scan yields no directives — either the marker (or the head commit) is
absent and the Scanner signals `None`, or the marker is present but zero
payloads were extracted — and then the plan is one RunConfig per
discovered workflow file, identical to the base except for `wfile`, in
discovery order. -/
theorem c3_amended (head : Option HeadCommit) (base : RunConfig) (g : String)
    (discover : List String) :
    (ciRecursiveTriggered head = true ↔
      (parse_commit_message head = none ∨ parse_commit_message head = some []))
    ∧ (ciRecursiveTriggered head = true →
        ciPlan head base g discover =
          some (discover.map fun w => { base with wfile := some w })) := by
  constructor
  · unfold ciRecursiveTriggered
    cases hp : parse_commit_message head with
    | none => simp
    | some l =>
      cases l with
      | nil => simp
      | cons d ds => simp
  · intro ht
    unfold ciRecursiveTriggered at ht
    unfold ciPlan recursivePlan
    cases hp : parse_commit_message head with
    | none => rfl
    | some l =>
      rw [hp] at ht
      cases l with
      | nil => rfl
      | cons d ds => simp at ht

/-- Witness for C3 amended at a concrete marker-but-no-payload message and
two discovered workflow files. -/
theorem c3_amended_witness :
    ciPlan (some hc3) (defaultConfig gEx) gEx ["a.workflow", "b.workflow"] =
      some [{ defaultConfig gEx with wfile := some ("a.workflow") },
            { defaultConfig gEx with wfile := some ("b.workflow") }] :=
  (c3_amended (some hc3) (defaultConfig gEx) gEx ["a.workflow", "b.workflow"]).2 (by decide)

/-- C1 counterexample: for the two-payload example message, the actual
plan re-parses each directive from the declared defaults, so a base config
with `debug` set and an explicit `wfile` does *not* contribute those
fields to the planned runs: the second planned config differs from "base
with `action := test`". -/
theorem c1_counterexample :
    ciPlan (some hc1) c1base gEx [] =
      some [{ defaultConfig gEx with wfile := some ("a.workflow"), action := some ("build") },
            { defaultConfig gEx with action := some ("test") }]
    ∧ { defaultConfig gEx with action := some ("test") } ≠ { c1base with action := some ("test") } := by
  refine ⟨by decide, by decide⟩

/-- A successful directive re-parse yields exactly one config per
directive. -/
theorem get_args_length (g : String) : ∀ (ds : List (List Char)) (cfgs : List RunConfig),
    get_args g ds = some cfgs → cfgs.length = ds.length := by
  intro ds
  induction ds with
  | nil =>
    intro cfgs h
    simp [get_args] at h
    simp [← h]
  | cons d rest ih =>
    intro cfgs h
    unfold get_args at h
    cases hp : parse_args g (splitSpaces d) with
    | none => rw [hp] at h; simp at h
    | some cfg =>
      rw [hp] at h
      dsimp only at h
      cases hg : get_args g rest with
      | none => rw [hg] at h; simp at h
      | some cfgs0 =>
        rw [hg] at h
        dsimp only at h
        injection h with h'
        rw [← h']
        simp [ih cfgs0 hg]

/-- The i-th config of a successful directive re-parse is the re-parse of
the i-th extracted directive (left-to-right order preserved). -/
theorem get_args_get (g : String) : ∀ (ds : List (List Char)) (cfgs : List RunConfig),
    get_args g ds = some cfgs →
      ∀ i, cfgs.get? i = (ds.get? i).bind fun s => parse_args g (splitSpaces s) := by
  intro ds
  induction ds with
  | nil =>
    intro cfgs h i
    simp [get_args] at h
    subst h
    simp
  | cons d rest ih =>
    intro cfgs h i
    unfold get_args at h
    cases hp : parse_args g (splitSpaces d) with
    | none => rw [hp] at h; simp at h
    | some cfg =>
      rw [hp] at h
      dsimp only at h
      cases hg : get_args g rest with
      | none => rw [hg] at h; simp at h
      | some cfgs0 =>
        rw [hg] at h
        dsimp only at h
        injection h with h'
        rw [← h']
        cases i with
        | zero => simp [hp]
        | succ n => simpa using ih cfgs0 hg n

/-- C1 amended: for every commit message whose scan yields directives, the
plan is the directive strings re-parsed with the full top-level grammar,
one RunConfig per directive in left-to-right extraction order; the
re-parse starts from the declared defaults and `kwargs.update` replaces
every field of the base config with the re-parsed value, so a field the
directive does not mention takes the parser's default, not the base
invocation's value.  For the example message the plan is two configs in
directive order with `wfile=a.workflow, action=build` and `action=test`,
all other fields at the parser's declared defaults. -/
theorem c1_amended (head : Option HeadCommit) (base : RunConfig) (g : String)
    (discover : List String) (d : List Char) (ds : List (List Char))
    (h : parse_commit_message head = some (d :: ds)) :
    ciPlan head base g discover = get_args g (d :: ds)
    ∧ (∀ cfgs, ciPlan head base g discover = some cfgs →
        cfgs.length = (d :: ds).length
        ∧ ∀ i, cfgs.get? i = ((d :: ds).get? i).bind fun s => parse_args g (splitSpaces s))
    ∧ ciPlan (some hc1) base g discover =
        some [{ defaultConfig g with wfile := some ("a.workflow"), action := some ("build") },
              { defaultConfig g with action := some ("test") }] := by
  have h1 : ciPlan head base g discover = get_args g (d :: ds) := by
    unfold ciPlan
    rw [h]
  refine ⟨h1, ?_, rfl⟩
  intro cfgs hc
  rw [h1] at hc
  exact ⟨get_args_length g (d :: ds) cfgs hc, get_args_get g (d :: ds) cfgs hc⟩

/-- Witness for C1 amended at the example message and a non-default base
config. -/
theorem c1_amended_witness :
    (ciPlan (some hc1) c1base gEx [] =
        get_args gEx [("--wfile a.workflow build").toList, ("test").toList])
    ∧ (∀ cfgs, ciPlan (some hc1) c1base gEx [] = some cfgs →
        cfgs.length = 2
        ∧ ∀ i, cfgs.get? i =
            (([("--wfile a.workflow build").toList, ("test").toList]).get? i).bind
              fun s => parse_args gEx (splitSpaces s))
    ∧ ciPlan (some hc1) c1base gEx [] =
        some [{ defaultConfig gEx with wfile := some ("a.workflow"), action := some ("build") },
              { defaultConfig gEx with action := some ("test") }] :=
  c1_amended (some hc1) c1base gEx [] (("--wfile a.workflow build").toList)
    [("test").toList] (by decide)

/-- C9 counterexample: a CI invocation whose commit message carries two
directives performs two writes of the interrupt-handling record in one
command invocation (one per `run_workflow` call), not one. -/
theorem c9_counterexample :
    (ciCommand resolveEx engineOk envNone gEx [] (some hc9) (defaultConfig gEx)).1.length = 2 ∧
      (ciCommand resolveEx engineOk envNone gEx [] (some hc9) (defaultConfig gEx)).2 =
        SeqOutcome.completed := by
  refine ⟨by decide, by decide⟩

/-- C9 amended: the interrupt-handling record is written exactly once per
Sequencer invocation that passes workflow resolution (carrying that run's
`parallel` flag), hence N times for a plan of N RunConfigs, not once per
command invocation. -/
theorem c9_amended (resolve : Option String → Option String)
    (engine : Invocation → ExecResult) (env : Env) (cfg : RunConfig) (w : String)
    (h : resolve cfg.wfile = some w) :
    (run_workflow resolve engine env cfg).writes = [cfg.parallel] := by
  unfold run_workflow
  rw [h]
  dsimp only
  split
  · rfl
  · split
    · rfl
    · cases htr : tryStages engine env cfg w with
      | mk tr0 r =>
        cases r with
        | none => rfl
        | some c0 =>
          dsimp only
          split
          · cases cfg.on_failure with
            | none => rfl
            | some f0 =>
              dsimp only
              split <;> rfl
          · rfl

/-- Witness for C9 amended at a concrete resolvable config. -/
theorem c9_amended_witness :
    (run_workflow resolveEx engineOk envNone (defaultConfig gEx)).writes = [false] :=
  c9_amended resolveEx engineOk envNone (defaultConfig gEx) ("main.workflow") rfl

